import Mathlib

/-!
Verification of the protocol bridge of `claude-code-proxy`
(`src/dist/claude-code-proxy.js`).

Strings are modelled as `List Char`.  JavaScript's `JSON` values are modelled
by the inductive type `Json` below (numeric JSON values are outside the
modelled universe; no claim involves them).  `JSON.parse` of an agent output
line is a JavaScript built-in and is modelled as an explicit parameter
`parse : List Char → Option StreamEvent` wherever it occurs; a line on which
the real code throws inside its `try` block (invalid JSON, or content of a
shape on which `ContentAsString` throws) corresponds to `parse` returning
`none`, since in both cases the line is ignored with no state change.
-/

/-- Converts a Lean string literal to the `List Char` representation used
throughout this development. -/
def strL (s : String) : List Char := s.toList

/-- JavaScript whitespace test used by `String.prototype.trim` (ASCII part;
exotic Unicode space code points are outside the modelled universe). -/
def jsWhitespace (c : Char) : Bool :=
  c == ' ' || c == '\t' || c == '\n' || c == '\r' || c == '\x0b' || c == '\x0c'

/-- A line is blank exactly when `Line.trim() === ""` holds in the source,
i.e. every character is whitespace. -/
def isBlank (l : List Char) : Bool := l.all jsWhitespace

/-- Models `String.prototype.trim`: drop whitespace from both ends. -/
def jsTrim (l : List Char) : List Char :=
  ((l.dropWhile jsWhitespace).reverse.dropWhile jsWhitespace).reverse

/-- JSON values (JavaScript objects keep string keys in insertion order;
numeric values are outside the modelled universe). -/
inductive Json where
  | null : Json
  | bool : Bool → Json
  | str : List Char → Json
  | arr : List Json → Json
  | obj : List (List Char × Json) → Json

/-- Looks a key up in an object field list (first match; JavaScript runtime
objects hold each key at most once). -/
def lookupField : List (List Char × Json) → List Char → Option Json
  | [], _ => none
  | (k, v) :: fs, key => if k == key then some v else lookupField fs key

/-- Models JavaScript property access `j[key]` on a parsed JSON value:
`some v` when `j` is an object with the field, `none` (undefined) otherwise.
(Property access on `null` throws in JavaScript; the claims never exercise
`null` elements where this function is used on members of a block list.) -/
def jsonLookup (j : Json) (key : List Char) : Option Json :=
  match j with
  | Json.obj fs => lookupField fs key
  | _ => none

/-- Tests `Block.type === "text"` on a block of a content array. -/
def isTextBlock (b : Json) : Bool :=
  match jsonLookup b (strL "type") with
  | some (Json.str t) => t == strL "text"
  | _ => false

mutual

/-- Models the JavaScript `String(v)` conversion of a parsed JSON value
(as applied by `Array.prototype.join` to non-null elements). -/
def jsToString : Json → List Char
  | Json.null => strL "null"
  | Json.bool true => strL "true"
  | Json.bool false => strL "false"
  | Json.str s => s
  | Json.arr xs => jsJoinComma xs
  | Json.obj _ => strL "[object Object]"

/-- Models `Array.prototype.join(",")` (i.e. `Array.prototype.toString`):
`null` elements become empty strings. -/
def jsJoinComma : List Json → List Char
  | [] => []
  | [Json.null] => []
  | [x] => jsToString x
  | Json.null :: xs => ',' :: jsJoinComma xs
  | x :: xs => jsToString x ++ ',' :: jsJoinComma xs

end

/-- Conversion applied by `Array.prototype.join` to one element: `undefined`
(absent) and `null` become the empty string, anything else is `String(v)`. -/
def joinElemString : Option Json → List Char
  | none => []
  | some Json.null => []
  | some v => jsToString v

/-- Lower-case hexadecimal digit, as emitted by `JSON.stringify` in
`\u00XX` escapes. -/
def hexDigit (n : Nat) : Char :=
  if n < 10 then Char.ofNat (48 + n) else Char.ofNat (87 + n)

/-- Per-character escaping performed by `JSON.stringify` inside string
literals. -/
def escapeChar (c : Char) : List Char :=
  if c == '"' then ['\\', '"']
  else if c == '\\' then ['\\', '\\']
  else if c == '\n' then ['\\', 'n']
  else if c == '\r' then ['\\', 'r']
  else if c == '\t' then ['\\', 't']
  else if c == '\x08' then ['\\', 'b']
  else if c == '\x0c' then ['\\', 'f']
  else if c.toNat < 32 then
    ['\\', 'u', '0', '0', hexDigit (c.toNat / 16), hexDigit (c.toNat % 16)]
  else [c]

/-- A JSON string literal as produced by `JSON.stringify`. -/
def escStringChars (s : List Char) : List Char :=
  '"' :: (s.map escapeChar).flatten ++ ['"']

mutual

/-- Models `JSON.stringify` on the modelled JSON universe (object keys in
insertion order, no added whitespace). -/
def stringifyJson : Json → List Char
  | Json.null => strL "null"
  | Json.bool true => strL "true"
  | Json.bool false => strL "false"
  | Json.str s => escStringChars s
  | Json.arr xs => '[' :: stringifyArr xs ++ [']']
  | Json.obj fs => '\x7b' :: stringifyObj fs ++ ['\x7d']

/-- Comma-separated serialization of array elements. -/
def stringifyArr : List Json → List Char
  | [] => []
  | [x] => stringifyJson x
  | x :: y :: xs => stringifyJson x ++ ',' :: stringifyArr (y :: xs)

/-- Comma-separated serialization of object fields. -/
def stringifyObj : List (List Char × Json) → List Char
  | [] => []
  | [(k, v)] => escStringChars k ++ ':' :: stringifyJson v
  | (k, v) :: f :: fs => escStringChars k ++ ':' :: stringifyJson v ++ ',' :: stringifyObj (f :: fs)

end

/-- Fueled decimal rendering helper (fuel bounds the number of digits). -/
def natCharsAux : Nat → Nat → List Char → List Char
  | 0, _, acc => acc
  | fuel + 1, n, acc =>
    if n < 10 then Char.ofNat (48 + n) :: acc
    else natCharsAux fuel (n / 10) (Char.ofNat (48 + n % 10) :: acc)

/-- Decimal rendering of a natural number, as in JavaScript string
interpolation of a non-negative integer. -/
def natChars (n : Nat) : List Char := natCharsAux (n + 1) n []

/-- Content of an inbound OpenAI message: a plain string or an array of
content blocks (blocks are passed through as opaque JSON values). -/
inductive MsgContent where
  | str : List Char → MsgContent
  | blocks : List Json → MsgContent

/-- An inbound OpenAI-style message. -/
structure Message where
  role : List Char
  content : MsgContent

/-- Models `normalizedContent` (source lines 47-51): a string becomes a
single text block, a block array is returned as-is. -/
def normalizedContent : MsgContent → List Json
  | MsgContent.str s =>
      [Json.obj [(strL "type", Json.str (strL "text")), (strL "text", Json.str s)]]
  | MsgContent.blocks bs => bs

/-- The `type` field given to an outbound agent event (source line 57):
`"user"` for user messages, `"assistant"` for every other non-system role. -/
def agentEventType (m : Message) : List Char :=
  if m.role == strL "user" then strL "user" else strL "assistant"

/-- The JSON object built for one outbound agent event (source lines 56-59). -/
def agentEventJson (m : Message) : Json :=
  Json.obj
    [(strL "type", Json.str (agentEventType m)),
     (strL "message",
       Json.obj [(strL "role", Json.str m.role),
                 (strL "content", Json.arr (normalizedContent m.content))])]

/-- Models `Array.prototype.join("\n")` on a list of already-converted
strings. -/
def joinNL : List (List Char) → List Char
  | [] => []
  | [l] => l
  | l :: l2 :: ls => l ++ '\n' :: joinNL (l2 :: ls)

/-- Models `MessagesAsNDJSON` (source lines 53-62): drop system messages,
serialize each remaining message as one agent-event JSON line, join the
lines with `"\n"` and append a trailing `"\n"`. -/
def MessagesAsNDJSON (ms : List Message) : List Char :=
  joinNL ((ms.filter (fun m => m.role != strL "system")).map
      (fun m => stringifyJson (agentEventJson m))) ++ strL "\n"

/-- Models `Array.prototype.join("\n")` on raw element values, converting
each element as `Array.prototype.join` does. -/
def joinFieldNL : List (Option Json) → List Char
  | [] => []
  | [v] => joinElemString v
  | v :: w :: vs => joinElemString v ++ '\n' :: joinFieldNL (w :: vs)

/-- Models `extractedSystemPrompt` (source lines 64-76): the first message
with role `"system"` decides the result; string content is returned
verbatim, block content is reduced to its `type === "text"` blocks whose
`text` fields are joined with `"\n"`. -/
def extractedSystemPrompt (ms : List Message) : Option (List Char) :=
  match ms.find? (fun m => m.role == strL "system") with
  | none => none
  | some m =>
    match m.content with
    | MsgContent.str s => some s
    | MsgContent.blocks bs =>
        some (joinFieldNL ((bs.filter isTextBlock).map
          (fun b => jsonLookup b (strL "text"))))

/-- Content carried by a decoded agent stream event: a plain string or an
array of blocks (opaque JSON values). -/
inductive Content where
  | str : List Char → Content
  | blocks : List Json → Content

/-- The fields of a parsed agent output line that the bridge consumes:
`Event.type` and `Event.message?.content` (`none` when the `message`
object or its `content` field is absent or `null`). -/
structure StreamEvent where
  type : List Char
  content : Option Content

/-- Models `ContentAsString` (source lines 81-89): strings pass through,
block arrays keep their `type === "text"` blocks and concatenate their
`text` fields (absent text fields contribute `""` via `?? ""`). -/
def ContentAsString : Content → List Char
  | Content.str s => s
  | Content.blocks bs =>
      ((bs.filter isTextBlock).map
        (fun b => joinElemString (jsonLookup b (strL "text")))).flatten

/-- Mutable decoder state of `ResponseFromClaudeCodeStreaming`: the longest
assistant text recorded so far (`LastText`) and the increments handed to
`onToken` so far, in order. -/
structure DecState where
  lastText : List Char
  increments : List (List Char)
deriving DecidableEq

/-- Processing of one successfully parsed event (source lines 170-178):
only an assistant event with present content and a strictly longer
computed text extends the state; the new suffix is emitted. -/
def processEvent (st : DecState) (ev : StreamEvent) : DecState :=
  if ev.type == strL "assistant" then
    match ev.content with
    | none => st
    | some c =>
      if st.lastText.length < (ContentAsString c).length then
        { lastText := ContentAsString c,
          increments := st.increments ++ [(ContentAsString c).drop st.lastText.length] }
      else st
  else st

/-- Processing of one complete line (source lines 166-181): blank lines are
filtered out, unparseable lines are ignored, parsed events are handled by
`processEvent`. -/
def processLine (parse : List Char → Option StreamEvent)
    (st : DecState) (line : List Char) : DecState :=
  if isBlank line then st
  else
    match parse line with
    | none => st
    | some ev => processEvent st ev

/-- Models `LineBuffer.split("\n")` followed by `Lines.pop()` (source lines
164-165): the complete lines in order, and the trailing carry-over
fragment. -/
def linesAndCarry : List Char → List (List Char) × List Char
  | [] => ([], [])
  | c :: cs =>
    let p := linesAndCarry cs
    if c == '\n' then ([] :: p.1, p.2)
    else
      match p.1 with
      | [] => ([], c :: p.2)
      | l :: ls => ((c :: l) :: ls, p.2)

/-- How `linesAndCarry` of a concatenation combines the two halves: the
left carry is glued onto the first segment of the right half. -/
def lcCombine (pa pb : List (List Char) × List Char) : List (List Char) × List Char :=
  match pb.1 with
  | [] => (pa.1, pa.2 ++ pb.2)
  | l :: ls => (pa.1 ++ (pa.2 ++ l) :: ls, pb.2)

/-- All segments of `Raw.split("\n")`: the complete lines followed by the
final (possibly empty) unterminated segment. -/
def docLines (s : List Char) : List (List Char) :=
  (linesAndCarry s).1 ++ [(linesAndCarry s).2]

/-- The lines of a document that survive the `Line.trim() !== ""` filter. -/
def nonblankLines (s : List Char) : List (List Char) :=
  (docLines s).filter (fun l => !(isBlank l))

/-- Per-session state of the streaming decoder: the carry-over `LineBuffer`
plus the decode state. -/
structure ChunkState where
  lineBuffer : List Char
  dec : DecState
deriving DecidableEq

/-- Models the `stdout` data handler of `ResponseFromClaudeCodeStreaming`
(source lines 162-182): append the chunk to the buffer, split on newline,
hold back the final fragment, process each complete line. -/
def processChunk (parse : List Char → Option StreamEvent)
    (st : ChunkState) (chunk : List Char) : ChunkState :=
  { lineBuffer := (linesAndCarry (st.lineBuffer ++ chunk)).2,
    dec := (linesAndCarry (st.lineBuffer ++ chunk)).1.foldl (processLine parse) st.dec }

/-- Decoder state at the start of a decode session: empty buffer, empty
recorded text, no increments. -/
def initialChunkState : ChunkState := ⟨[], ⟨[], []⟩⟩

/-- Folds the event-level decoder over a list of parsed events. -/
def runEvents (evs : List StreamEvent) (st : DecState) : DecState :=
  evs.foldl processEvent st

/-- Models `TextExtractedFromStreamJSON` (source lines 91-107): split the
whole output on newlines, drop blank lines, and reduce with the last
computed assistant text (a parse failure keeps the accumulator). -/
def TextExtractedFromStreamJSON (parse : List Char → Option StreamEvent)
    (raw : List Char) : List Char :=
  ((docLines raw).filter (fun l => !(isBlank l))).foldl
    (fun lastText line =>
      match parse line with
      | none => lastText
      | some ev =>
        if ev.type == strL "assistant" then
          match ev.content with
          | some c => ContentAsString c
          | none => lastText
        else lastText)
    []

/-- The assistant text a single line contributes in the non-streaming
parse, if any. -/
def assistantLineText (parse : List Char → Option StreamEvent)
    (line : List Char) : Option (List Char) :=
  match parse line with
  | none => none
  | some ev =>
    if ev.type == strL "assistant" then
      match ev.content with
      | some c => some (ContentAsString c)
      | none => none
    else none

/-- A content block `{type:"text", text:t}` as a JSON value. -/
def textBlockJson (t : List Char) : Json :=
  Json.obj [(strL "type", Json.str (strL "text")), (strL "text", Json.str t)]

/-- An assistant stream event whose cumulative text is `t`, in the shape the
agent emits (`message.content` a single text block). -/
def textEvent (t : List Char) : StreamEvent :=
  ⟨strL "assistant", some (Content.blocks [textBlockJson t])⟩

/-- The `text` field of a block that is a Text block with a string `text`
field; `none` otherwise.  This is the spec's reading of "the text fields of
its Text blocks". -/
def textBlockString (b : Json) : Option (List Char) :=
  match jsonLookup b (strL "type"), jsonLookup b (strL "text") with
  | some (Json.str t), some (Json.str s) => if t == strL "text" then some s else none
  | _, _ => none

/-- Result of one agent invocation as resolved by the `close` handler. -/
inductive RunResult where
  | ok : List Char → List Char → RunResult
  | err : List Char → RunResult
deriving DecidableEq

/-- Models `SessionId ?? randomUUID()` (source line 117): the caller's id
when present, else the freshly generated UUID. -/
def resolvedSessionId : Option (List Char) → List Char → List Char
  | some sid, _ => sid
  | none, fresh => fresh

/-- Decimal rendering of `${Code}` where `Code` is the exit code of the
`close` event (`null` when the process was killed by a signal). -/
def exitCodeChars : Option Int → List Char
  | none => strL "null"
  | some i => if i < 0 then '-' :: natChars i.natAbs else natChars i.toNat

/-- Models the `close` handler of `ResponseFromClaudeCode` (source lines
132-141): a non-zero exit code rejects with a message carrying the code and
the trimmed diagnostic text; exit code zero resolves with the parsed text
and the resolved session id. -/
def closeOutcome (parse : List Char → Option StreamEvent) (code : Option Int)
    (stdOut stdErr : List Char) (sid : Option (List Char)) (fresh : List Char) :
    RunResult :=
  if !(code == some (0 : Int)) then
    RunResult.err
      (strL "claude exited with code " ++ exitCodeChars code ++ strL ": " ++ jsTrim stdErr)
  else
    RunResult.ok (TextExtractedFromStreamJSON parse stdOut) (resolvedSessionId sid fresh)

/-- An effect performed by the process session on its subprocess or its
pending promise. -/
inductive SessionAction where
  | kill : List Char → SessionAction
  | rejectWith : List Char → SessionAction
deriving DecidableEq

/-- The wall-clock bound passed to `setTimeout` (source lines 186-189),
in milliseconds. -/
def timeoutLimitMs : Nat := 120000

/-- The actions of the timer callback (source lines 186-189): send SIGTERM
to the process, then fail the operation with the timeout error. -/
def onTimeoutActions : List SessionAction :=
  [SessionAction.kill (strL "SIGTERM"),
   SessionAction.rejectWith (strL "claude CLI timed out after 120 s")]

/-- An agent output line carrying one assistant text block, rendered exactly
as NDJSON (used to exhibit concrete decoder runs). -/
def demoLine (t : List Char) : List Char :=
  stringifyJson (Json.obj
    [(strL "type", Json.str (strL "assistant")),
     (strL "message", Json.obj [(strL "content", Json.arr [textBlockJson t])])])

/-- A concrete line parser covering the two demo lines (the restriction of
`JSON.parse` to the lines of `demoRaw`). -/
def parseDemo (line : List Char) : Option StreamEvent :=
  if line == demoLine (strL "Hello") then
    some ⟨strL "assistant", some (Content.blocks [textBlockJson (strL "Hello")])⟩
  else if line == demoLine (strL "Hi") then
    some ⟨strL "assistant", some (Content.blocks [textBlockJson (strL "Hi")])⟩
  else none

/-- A complete agent output: an assistant event with text "Hello" followed
by an assistant event with the shorter text "Hi", both newline-terminated. -/
def demoRaw : List Char :=
  demoLine (strL "Hello") ++ '\n' :: demoLine (strL "Hi") ++ ['\n']

/-- The Unicode replacement character U+FFFD, substituted by the UTF-8
decoder for each maximal subpart of an invalid or truncated sequence. -/
def replChar : Char := Char.ofNat 0xFFFD

/-- A byte is a UTF-8 continuation byte. -/
def utf8Cont (c1 : Nat) : Prop := 0x80 ≤ c1 ∧ c1 ≤ 0xBF

instance (c1 : Nat) : Decidable (utf8Cont c1) := by unfold utf8Cont; infer_instance

/-- Valid range of the first continuation byte after a three-byte lead
(tightened for leads 0xE0 and 0xED to exclude overlongs and surrogates). -/
def utf8Cont1of3 (b c1 : Nat) : Prop :=
  (if b = 0xE0 then 0xA0 else 0x80) ≤ c1 ∧ c1 ≤ (if b = 0xED then 0x9F else 0xBF)

instance (b c1 : Nat) : Decidable (utf8Cont1of3 b c1) := by unfold utf8Cont1of3; infer_instance

/-- Valid range of the first continuation byte after a four-byte lead
(tightened for leads 0xF0 and 0xF4 to exclude overlongs and values past
U+10FFFF). -/
def utf8Cont1of4 (b c1 : Nat) : Prop :=
  (if b = 0xF0 then 0x90 else 0x80) ≤ c1 ∧ c1 ≤ (if b = 0xF4 then 0x8F else 0xBF)

instance (b c1 : Nat) : Decidable (utf8Cont1of4 b c1) := by unfold utf8Cont1of4; infer_instance

/-- The UTF-8 encoding of one character (bytes as naturals below 256). -/
def utf8EncodeChar (c : Char) : List Nat :=
  if c.toNat < 0x80 then [c.toNat]
  else if c.toNat < 0x800 then [0xC0 + c.toNat / 64, 0x80 + c.toNat % 64]
  else if c.toNat < 0x10000 then
    [0xE0 + c.toNat / 4096, 0x80 + (c.toNat / 64) % 64, 0x80 + c.toNat % 64]
  else
    [0xF0 + c.toNat / 262144, 0x80 + (c.toNat / 4096) % 64, 0x80 + (c.toNat / 64) % 64,
     0x80 + c.toNat % 64]

/-- The UTF-8 encoding of a string. -/
def utf8Encode (s : List Char) : List Nat := (s.map utf8EncodeChar).flatten

/-- Models `Buffer.prototype.toString("utf8")` as applied to one data chunk
(source line 163, `Chunk.toString()`): WHATWG UTF-8 decoding where every
maximal subpart of an invalid or truncated sequence becomes one U+FFFD.
Each chunk is decoded independently - no decoder state is carried from one
chunk to the next, so a multi-byte character split across two chunks
decodes to replacement characters. -/
def utf8DecodeBuf : List Nat → List Char
  | [] => []
  | b :: bs =>
    if b < 0x80 then Char.ofNat b :: utf8DecodeBuf bs
    else if b < 0xC2 then replChar :: utf8DecodeBuf bs
    else if b ≤ 0xDF then
      match bs with
      | [] => [replChar]
      | c1 :: rest =>
        if utf8Cont c1 then
          Char.ofNat ((b - 0xC0) * 64 + (c1 - 0x80)) :: utf8DecodeBuf rest
        else replChar :: utf8DecodeBuf (c1 :: rest)
    else if b ≤ 0xEF then
      match bs with
      | [] => [replChar]
      | c1 :: rest =>
        if utf8Cont1of3 b c1 then
          match rest with
          | [] => [replChar]
          | c2 :: rest2 =>
            if utf8Cont c2 then
              Char.ofNat ((b - 0xE0) * 4096 + (c1 - 0x80) * 64 + (c2 - 0x80)) ::
                utf8DecodeBuf rest2
            else replChar :: utf8DecodeBuf (c2 :: rest2)
        else replChar :: utf8DecodeBuf (c1 :: rest)
    else if b ≤ 0xF4 then
      match bs with
      | [] => [replChar]
      | c1 :: rest =>
        if utf8Cont1of4 b c1 then
          match rest with
          | [] => [replChar]
          | c2 :: rest2 =>
            if utf8Cont c2 then
              match rest2 with
              | [] => [replChar]
              | c3 :: rest3 =>
                if utf8Cont c3 then
                  Char.ofNat ((b - 0xF0) * 262144 + (c1 - 0x80) * 4096 +
                    (c2 - 0x80) * 64 + (c3 - 0x80)) :: utf8DecodeBuf rest3
                else replChar :: utf8DecodeBuf (c3 :: rest3)
            else replChar :: utf8DecodeBuf (c2 :: rest2)
        else replChar :: utf8DecodeBuf (c1 :: rest)
    else replChar :: utf8DecodeBuf bs

/-- Models the full `stdout` data handler on a raw byte chunk (source lines
162-165): the chunk is first decoded to text via `Chunk.toString()`, then
appended to the line buffer and split as in `processChunk`. -/
def processChunkBuf (parse : List Char → Option StreamEvent)
    (st : ChunkState) (chunk : List Nat) : ChunkState :=
  processChunk parse st (utf8DecodeBuf chunk)

/-- The UTF-8 bytes of a complete agent output: one newline-terminated
assistant event whose text is the two-byte character "é". -/
def demoBytes : List Nat := utf8Encode (demoLine (strL "é") ++ strL "\n")

/-- The first fragment of `demoBytes` split at byte position 66: it ends
with the lead byte 0xC3 of "é", in the middle of that character. -/
def demoBytesA : List Nat := demoBytes.take 66

/-- The second fragment of `demoBytes`: it starts with the orphan
continuation byte 0xA9 of "é". -/
def demoBytesB : List Nat := demoBytes.drop 66

/-- A concrete line parser covering the intact demo line and its mangled
variant in which "é" became two replacement characters (the restriction of
`JSON.parse` to the lines arising from `demoBytes`). -/
def parseDemoE (line : List Char) : Option StreamEvent :=
  if line == demoLine (strL "é") then
    some ⟨strL "assistant", some (Content.blocks [textBlockJson (strL "é")])⟩
  else if line == demoLine [replChar, replChar] then
    some ⟨strL "assistant", some (Content.blocks [textBlockJson [replChar, replChar]])⟩
  else none

/-! ## Lemmas about line splitting and the carry-over buffer -/

/-- Splitting a concatenation combines the splits of the halves. -/
theorem linesAndCarry_append (a b : List Char) :
    linesAndCarry (a ++ b) = lcCombine (linesAndCarry a) (linesAndCarry b) := by
  induction a with
  | nil =>
    rw [List.nil_append]
    rcases hb : linesAndCarry b with ⟨Lb, tb⟩
    cases Lb <;> simp [lcCombine, linesAndCarry]
  | cons c cs ih =>
    rw [List.cons_append]
    rcases ha : linesAndCarry cs with ⟨La, ta⟩
    rcases hb : linesAndCarry b with ⟨Lb, tb⟩
    rw [ha, hb] at ih
    simp only [linesAndCarry, ih, ha]
    by_cases hc : c == '\n'
    · cases Lb <;> cases La <;> simp [lcCombine, hc]
    · cases Lb <;> cases La <;> simp [lcCombine, hc]

/-- A string without newlines splits into no complete line and itself as
carry. -/
theorem linesAndCarry_of_noNL (s : List Char) (h : ('\n' : Char) ∉ s) :
    linesAndCarry s = ([], s) := by
  induction s with
  | nil => rfl
  | cons c cs ih =>
    have hc : ¬(c == '\n') = true := by
      simp only [beq_iff_eq]
      intro hh
      exact h (hh ▸ List.mem_cons_self c cs)
    have hcs : ('\n' : Char) ∉ cs := fun hm => h (List.mem_cons_of_mem c hm)
    simp [linesAndCarry, hc, ih hcs]

/-- The carry-over fragment never contains a newline. -/
theorem noNL_carry (s : List Char) : ('\n' : Char) ∉ (linesAndCarry s).2 := by
  induction s with
  | nil => simp [linesAndCarry]
  | cons c cs ih =>
    by_cases hc : c == '\n'
    · simpa [linesAndCarry, hc] using ih
    · cases ha : (linesAndCarry cs).1 with
      | nil =>
        simp only [linesAndCarry, hc, Bool.false_eq_true, if_false, ha]
        intro hmem
        rcases List.mem_cons.mp hmem with h1 | h2
        · exact absurd (beq_iff_eq.mpr h1.symm) (by simpa using hc)
        · exact ih h2
      | cons l ls => simpa [linesAndCarry, hc, ha] using ih

/-- Feeding two chunks one after the other equals feeding their
concatenation: the carry-over buffer makes chunk boundaries invisible. -/
theorem processChunk_append (parse : List Char → Option StreamEvent)
    (st : ChunkState) (a b : List Char) :
    processChunk parse (processChunk parse st a) b =
      processChunk parse st (a ++ b) := by
  have hassoc : st.lineBuffer ++ (a ++ b) = (st.lineBuffer ++ a) ++ b := by
    rw [List.append_assoc]
  rcases ha : linesAndCarry (st.lineBuffer ++ a) with ⟨La, ta⟩
  rcases hb : linesAndCarry b with ⟨Lb, tb⟩
  have hta : ('\n' : Char) ∉ ta := by
    have := noNL_carry (st.lineBuffer ++ a)
    rw [ha] at this
    exact this
  have htb : linesAndCarry (ta ++ b) = lcCombine ([], ta) (Lb, tb) := by
    rw [linesAndCarry_append, linesAndCarry_of_noNL ta hta, hb]
  have hbig : linesAndCarry (st.lineBuffer ++ (a ++ b)) = lcCombine (La, ta) (Lb, tb) := by
    rw [hassoc, linesAndCarry_append, ha, hb]
  simp only [processChunk, ha, htb, hbig]
  cases Lb with
  | nil => simp [lcCombine]
  | cons lb lbs => simp [lcCombine, List.foldl_append]

/-- Feeding a non-empty list of chunks one at a time equals feeding their
concatenation as one chunk, from any state. -/
theorem foldl_processChunk_flatten (parse : List Char → Option StreamEvent)
    (chunks : List (List Char)) (c0 : List Char) :
    ∀ st : ChunkState,
      (c0 :: chunks).foldl (processChunk parse) st =
        processChunk parse st (c0 :: chunks).flatten := by
  induction chunks generalizing c0 with
  | nil => intro st; simp
  | cons c1 rest ih =>
    intro st
    have h1 : (c0 :: c1 :: rest).foldl (processChunk parse) st =
        (c1 :: rest).foldl (processChunk parse) (processChunk parse st c0) := rfl
    rw [h1, ih c1 (processChunk parse st c0), processChunk_append]
    simp [List.flatten_cons]

/-! ## Lemmas about the event-level decoder -/

/-- The text of a single-text-block content is that text. -/
theorem ContentAsString_textBlock (t : List Char) :
    ContentAsString (Content.blocks [textBlockJson t]) = t :=
  List.append_nil t

/-- Computation of `processEvent` on an assistant text event. -/
theorem processEvent_textEvent (st : DecState) (t : List Char) :
    processEvent st (textEvent t) =
      if st.lastText.length < t.length then
        { lastText := t, increments := st.increments ++ [t.drop st.lastText.length] }
      else st := by
  simp [processEvent, textEvent, ContentAsString_textBlock]

/-- One decoding step never shortens the recorded text. -/
theorem processEvent_length_le (st : DecState) (ev : StreamEvent) :
    st.lastText.length ≤ (processEvent st ev).lastText.length := by
  unfold processEvent
  split
  · split
    · exact Nat.le_refl _
    · split
      · next h => exact Nat.le_of_lt h
      · exact Nat.le_refl _
  · exact Nat.le_refl _

/-- The recorded text length is non-decreasing across any event sequence. -/
theorem foldl_processEvent_length_le (evs : List StreamEvent) :
    ∀ st : DecState, st.lastText.length ≤ (evs.foldl processEvent st).lastText.length := by
  induction evs with
  | nil => intro st; exact Nat.le_refl _
  | cons ev evs ih =>
    intro st
    exact Nat.le_trans (processEvent_length_le st ev) (ih (processEvent st ev))

/-- One decoding step only appends to the emitted increments. -/
theorem processEvent_increments_extend (st : DecState) (ev : StreamEvent) :
    ∃ t, (processEvent st ev).increments = st.increments ++ t := by
  unfold processEvent
  split
  · split
    · exact ⟨[], (List.append_nil _).symm⟩
    · split
      · exact ⟨_, rfl⟩
      · exact ⟨[], (List.append_nil _).symm⟩
  · exact ⟨[], (List.append_nil _).symm⟩

/-- Already-emitted increments are never retracted by further decoding. -/
theorem foldl_processEvent_increments_extend (evs : List StreamEvent) :
    ∀ st : DecState, st.increments <+: (evs.foldl processEvent st).increments := by
  induction evs with
  | nil => intro st; exact List.prefix_rfl
  | cons ev evs ih =>
    intro st
    obtain ⟨t, ht⟩ := processEvent_increments_extend st ev
    obtain ⟨u, hu⟩ := ih (processEvent st ev)
    exact ⟨t ++ u, by rw [← List.append_assoc, ← ht, hu]; rfl⟩

/-- Running the decoder over a chain of cumulative texts, each extending the
recorded text, ends at the last text and keeps the emitted increments equal
to the recorded text. -/
theorem runEvents_textChain (texts : List (List Char)) :
    ∀ st : DecState, st.increments.flatten = st.lastText →
      List.Chain (fun a b => b.take a.length = a) st.lastText texts →
      (runEvents (texts.map textEvent) st).lastText = texts.getLastD st.lastText ∧
      (runEvents (texts.map textEvent) st).increments.flatten =
        (runEvents (texts.map textEvent) st).lastText := by
  induction texts with
  | nil => exact fun st h1 _ => ⟨rfl, h1⟩
  | cons t ts ih =>
    intro st h1 hchain
    cases hchain with
    | cons hrel hchain2 =>
      have hle : st.lastText.length ≤ t.length := by
        have h2 := congrArg List.length hrel
        rw [List.length_take] at h2
        omega
      have hstep : (processEvent st (textEvent t)).lastText = t ∧
          (processEvent st (textEvent t)).increments.flatten = t := by
        rw [processEvent_textEvent]
        by_cases hlt : st.lastText.length < t.length
        · rw [if_pos hlt]
          refine ⟨rfl, ?_⟩
          show (st.increments ++ [t.drop st.lastText.length]).flatten = t
          rw [List.flatten_append, h1]
          calc st.lastText ++ [t.drop st.lastText.length].flatten
              = t.take st.lastText.length ++ t.drop st.lastText.length := by
                rw [hrel]; simp
            _ = t := List.take_append_drop _ _
        · rw [if_neg hlt]
          have hteq : t = st.lastText := by
            rw [← hrel]
            exact (List.take_of_length_le (by omega)).symm
          exact ⟨hteq.symm, by rw [h1]; exact hteq.symm⟩
      have hchain3 :
          List.Chain (fun a b => b.take a.length = a)
            (processEvent st (textEvent t)).lastText ts := by
        rw [hstep.1]; exact hchain2
      have hinv : (processEvent st (textEvent t)).increments.flatten =
          (processEvent st (textEvent t)).lastText := hstep.2.trans hstep.1.symm
      have hmain := ih (processEvent st (textEvent t)) hinv hchain3
      have hrw : runEvents ((t :: ts).map textEvent) st =
          runEvents (ts.map textEvent) (processEvent st (textEvent t)) := rfl
      rw [hrw]
      refine ⟨?_, hmain.2⟩
      rw [hmain.1, hstep.1, List.getLastD_cons]

/-! ## The serialized form of an event never contains a raw newline -/

/-- A hexadecimal digit character is never a newline. -/
theorem hexDigit_ne_newline (n : Nat) (h : n < 16) : ('\n' : Char) ≠ hexDigit n := by
  interval_cases n <;> decide

/-- Escaping a character never produces a raw newline. -/
theorem noNL_escapeChar (c : Char) : ('\n' : Char) ∉ escapeChar c := by
  unfold escapeChar
  split
  · decide
  · split
    · decide
    · split
      · decide
      · split
        · decide
        · split
          · decide
          · split
            · decide
            · split
              · decide
              · split
                · rename_i h8
                  intro hmem
                  simp only [List.mem_cons] at hmem
                  rcases hmem with h | h | h | h | h | h | h
                  · exact absurd h (by decide)
                  · exact absurd h (by decide)
                  · exact absurd h (by decide)
                  · exact absurd h (by decide)
                  · exact hexDigit_ne_newline _ (by omega) h
                  · exact hexDigit_ne_newline _ (by omega) h
                  · exact absurd h (List.not_mem_nil _)
                · rename_i h1 h2 h3 h4 h5 h6 h7 h8
                  intro hmem
                  rcases List.mem_singleton.mp hmem with rfl
                  exact h3 (by decide)

/-- A stringified JSON string literal never contains a raw newline. -/
theorem noNL_escString (s : List Char) : ('\n' : Char) ∉ escStringChars s := by
  unfold escStringChars
  intro hmem
  rcases List.mem_cons.mp hmem with h | h
  · exact absurd h (by decide)
  · rcases List.mem_append.mp h with h2 | h2
    · obtain ⟨l, hl, hc⟩ := List.mem_flatten.mp h2
      obtain ⟨c, _, rfl⟩ := List.mem_map.mp hl
      exact noNL_escapeChar c hc
    · exact absurd h2 (by decide)

mutual

/-- `JSON.stringify` output never contains a raw newline (values). -/
theorem noNL_stringifyJson : ∀ j : Json, ('\n' : Char) ∉ stringifyJson j
  | Json.null => by decide
  | Json.bool true => by decide
  | Json.bool false => by decide
  | Json.str s => noNL_escString s
  | Json.arr xs => by
      have ih := noNL_stringifyArr xs
      intro hmem
      rw [stringifyJson] at hmem
      rcases List.mem_cons.mp hmem with h | h
      · exact absurd h (by decide)
      · rcases List.mem_append.mp h with h2 | h2
        · exact ih h2
        · exact absurd h2 (by decide)
  | Json.obj fs => by
      have ih := noNL_stringifyObj fs
      intro hmem
      rw [stringifyJson] at hmem
      rcases List.mem_cons.mp hmem with h | h
      · exact absurd h (by decide)
      · rcases List.mem_append.mp h with h2 | h2
        · exact ih h2
        · exact absurd h2 (by decide)

/-- `JSON.stringify` output never contains a raw newline (array bodies). -/
theorem noNL_stringifyArr : ∀ xs : List Json, ('\n' : Char) ∉ stringifyArr xs
  | [] => by decide
  | [x] => by
      rw [stringifyArr]
      exact noNL_stringifyJson x
  | x :: y :: xs => by
      have ih1 := noNL_stringifyJson x
      have ih2 := noNL_stringifyArr (y :: xs)
      intro hmem
      rw [stringifyArr] at hmem
      rcases List.mem_append.mp hmem with h | h
      · exact ih1 h
      · rcases List.mem_cons.mp h with h2 | h2
        · exact absurd h2 (by decide)
        · exact ih2 h2

/-- `JSON.stringify` output never contains a raw newline (object bodies). -/
theorem noNL_stringifyObj : ∀ fs : List (List Char × Json), ('\n' : Char) ∉ stringifyObj fs
  | [] => by decide
  | [(k, v)] => by
      have ihv := noNL_stringifyJson v
      intro hmem
      rw [stringifyObj] at hmem
      rcases List.mem_append.mp hmem with h | h
      · exact noNL_escString k h
      · rcases List.mem_cons.mp h with h2 | h2
        · exact absurd h2 (by decide)
        · exact ihv h2
  | (k, v) :: f :: fs => by
      have ihv := noNL_stringifyJson v
      have ihf := noNL_stringifyObj (f :: fs)
      intro hmem
      rw [stringifyObj] at hmem
      rcases List.mem_append.mp hmem with h | h
      · rcases List.mem_append.mp h with h2 | h2
        · exact noNL_escString k h2
        · rcases List.mem_cons.mp h2 with h3 | h3
          · exact absurd h3 (by decide)
          · exact ihv h3
      · rcases List.mem_cons.mp h with h2 | h2
        · exact absurd h2 (by decide)
        · exact ihf h2

end

/-! ## Lines of the NDJSON document -/

/-- Splitting a newline-joined, newline-terminated document recovers the
lines exactly, with an empty carry. -/
theorem linesAndCarry_joinNL (ls : List (List Char))
    (hnn : ∀ l ∈ ls, ('\n' : Char) ∉ l) (hne : ls ≠ []) :
    linesAndCarry (joinNL ls ++ strL "\n") = (ls, []) := by
  induction ls with
  | nil => exact absurd rfl hne
  | cons a ls ih =>
    cases ls with
    | nil =>
      rw [show joinNL [a] = a from rfl,
        linesAndCarry_append, linesAndCarry_of_noNL a (hnn a (by simp)),
        show linesAndCarry (strL "\n") = ([[]], []) from rfl]
      simp [lcCombine]
    | cons b ls2 =>
      rw [joinNL, List.append_assoc, List.cons_append, linesAndCarry_append,
        linesAndCarry_of_noNL a (hnn a (by simp))]
      have hstep : linesAndCarry ('\n' :: (joinNL (b :: ls2) ++ strL "\n")) =
          ([] :: (linesAndCarry (joinNL (b :: ls2) ++ strL "\n")).1,
           (linesAndCarry (joinNL (b :: ls2) ++ strL "\n")).2) := by
        simp [linesAndCarry]
      rw [hstep, ih (fun l hl => hnn l (List.mem_cons_of_mem a hl)) (List.cons_ne_nil b ls2)]
      simp [lcCombine]

/-- A serialized agent event is never a blank line (it starts with an
opening brace). -/
theorem eventLine_not_blank (m : Message) :
    isBlank (stringifyJson (agentEventJson m)) = false := by
  have hws : jsWhitespace '\x7b' = false := by decide
  simp [agentEventJson, stringifyJson, isBlank, List.all_cons, hws]

/-- The non-blank lines of the produced NDJSON document are exactly the
serialized events of the non-system messages, in order. -/
theorem ndjson_nonblankLines (ms : List Message) :
    nonblankLines (MessagesAsNDJSON ms) =
      (ms.filter (fun m => m.role != strL "system")).map
        (fun m => stringifyJson (agentEventJson m)) := by
  have hgen : ∀ ls : List (List Char), (∀ l ∈ ls, ('\n' : Char) ∉ l) →
      (∀ l ∈ ls, isBlank l = false) →
      (docLines (joinNL ls ++ strL "\n")).filter (fun l => !(isBlank l)) = ls := by
    intro ls hnn hnb
    cases ls with
    | nil => decide
    | cons l0 ls0 =>
      unfold docLines
      rw [linesAndCarry_joinNL (l0 :: ls0) hnn (List.cons_ne_nil _ _), List.filter_append]
      have h1 : (l0 :: ls0).filter (fun l => !(isBlank l)) = l0 :: ls0 :=
        List.filter_eq_self.mpr (fun l hl => by rw [hnb l hl]; rfl)
      have h2 : ([[]] : List (List Char)).filter (fun l => !(isBlank l)) = [] := by decide
      rw [h1, h2, List.append_nil]
  unfold MessagesAsNDJSON nonblankLines
  exact hgen _
    (fun l hl => by
      obtain ⟨m, _, rfl⟩ := List.mem_map.mp hl
      exact noNL_stringifyJson _)
    (fun l hl => by
      obtain ⟨m, _, rfl⟩ := List.mem_map.mp hl
      exact eventLine_not_blank m)

/-! ## Helpers for the system-prompt extraction and the whole-output parse -/

/-- `find?` returns the first element past a failing run. -/
theorem find?_append_cons {α : Type} (p : α → Bool) (l1 l2 : List α) (a : α)
    (h1 : ∀ x ∈ l1, p x = false) (h2 : p a = true) :
    (l1 ++ a :: l2).find? p = some a := by
  induction l1 with
  | nil => simpa using List.find?_cons_of_pos l2 h2
  | cons x l1 ih =>
    rw [List.cons_append,
      List.find?_cons_of_neg _ (by simp [h1 x (List.mem_cons_self x l1)])]
    exact ih (fun y hy => h1 y (List.mem_cons_of_mem x hy))

/-- Folding a "replace when present" step is taking the last produced
value. -/
theorem foldl_getD_eq_getLastD {α β : Type} (g : α → Option β) (l : List α) :
    ∀ init : β,
      l.foldl (fun s a => (g a).getD s) init = (l.filterMap g).getLastD init := by
  induction l with
  | nil => intro init; rfl
  | cons a l ih =>
    intro init
    cases hg : g a with
    | none => simp only [List.foldl_cons, List.filterMap_cons, hg, Option.getD_none]; exact ih init
    | some v =>
      simp only [List.foldl_cons, List.filterMap_cons, hg, Option.getD_some, List.getLastD_cons]
      exact ih v

/-- A block is a Text block exactly when its `type` field is the string
`"text"`. -/
theorem isTextBlock_true_iff (b : Json) :
    isTextBlock b = true ↔ jsonLookup b (strL "type") = some (Json.str (strL "text")) := by
  unfold isTextBlock
  split
  · next t heq => rw [heq]; simp [beq_iff_eq]
  · next hno =>
    constructor
    · intro h; exact absurd h (by simp)
    · intro h; exact absurd h (hno (strL "text"))

/-- A non-Text block contributes nothing to the spec-side reading. -/
theorem textBlockString_eq_none (b : Json) (hib : isTextBlock b = false) :
    textBlockString b = none := by
  have hty : ¬ jsonLookup b (strL "type") = some (Json.str (strL "text")) := by
    intro h
    rw [← isTextBlock_true_iff] at h
    rw [hib] at h
    cases h
  unfold textBlockString
  split
  · next t s heq1 heq2 =>
    have ht : ¬ t = strL "text" := by
      intro h
      exact hty (by rw [heq1, h])
    simp [ht]
  · rfl

/-- On Text blocks whose `text` field is a string, the spec-side reading
yields that string. -/
theorem textBlockString_eq_some (b : Json) (hib : isTextBlock b = true)
    (s : List Char) (hs : jsonLookup b (strL "text") = some (Json.str s)) :
    textBlockString b = some s := by
  have hty := isTextBlock_true_iff b |>.mp hib
  unfold textBlockString
  rw [hty, hs]
  simp

/-- Joining wrapped strings with newlines equals joining the strings. -/
theorem joinFieldNL_map_str (ss : List (List Char)) :
    joinFieldNL (ss.map (fun s => some (Json.str s))) = joinNL ss := by
  induction ss with
  | nil => rfl
  | cons s ss ih =>
    cases ss with
    | nil => rfl
    | cons s2 ss2 =>
      rw [List.map_cons, List.map_cons, joinFieldNL, joinNL]
      have h2 : joinFieldNL (some (Json.str s2) ::
          List.map (fun s => some (Json.str s)) ss2) = joinNL (s2 :: ss2) := by
        simpa using ih
      rw [h2]
      rfl

/-- Under the assumption that every Text block carries a string `text`
field, the source's filter-and-map equals the spec-side `filterMap`. -/
theorem textBlocks_fields (bs : List Json)
    (h : ∀ b ∈ bs, isTextBlock b = true →
      ∃ s, jsonLookup b (strL "text") = some (Json.str s)) :
    (bs.filter isTextBlock).map (fun b => jsonLookup b (strL "text")) =
      (bs.filterMap textBlockString).map (fun s => some (Json.str s)) := by
  induction bs with
  | nil => rfl
  | cons b bs ih =>
    have htail := ih (fun b' hb' => h b' (List.mem_cons_of_mem b hb'))
    cases hib : isTextBlock b with
    | false =>
      rw [List.filter_cons, List.filterMap_cons, hib, textBlockString_eq_none b hib]
      simpa using htail
    | true =>
      obtain ⟨s, hs⟩ := h b (List.mem_cons_self b bs) hib
      rw [List.filter_cons, List.filterMap_cons, hib,
        textBlockString_eq_some b hib s hs]
      simp only [if_true, List.map_cons, hs]
      rw [htail]

/-! ## Claim theorems -/

/-- C1: for every sequence of assistant cumulative-text events in which
each text strictly extends the previous one, the streaming decoder's
emitted increments concatenate to exactly the final text, which is also
the final recorded text; in particular the texts "Hel" then "Hello" emit
increments "Hel" then "lo" with final text "Hello". -/
theorem c1_cumulative_chain_concat (texts : List (List Char)) (h1 : texts ≠ [])
    (h2 : List.Chain' (fun a b => b.take a.length = a ∧ a.length < b.length) texts) :
    (runEvents (texts.map textEvent) ⟨[], []⟩).increments.flatten = texts.getLast h1 ∧
    (runEvents (texts.map textEvent) ⟨[], []⟩).lastText = texts.getLast h1 ∧
    runEvents (List.map textEvent [strL "Hel", strL "Hello"]) ⟨[], []⟩ =
      ⟨strL "Hello", [strL "Hel", strL "lo"]⟩ := by
  cases texts with
  | nil => exact absurd rfl h1
  | cons t ts =>
    have hchain : List.Chain (fun a b => b.take a.length = a) ([] : List Char) (t :: ts) := by
      refine List.Chain.cons (List.take_zero t) ?_
      exact List.Chain.imp (fun a b hab => hab.1) h2
    have hrun := runEvents_textChain (t :: ts) ⟨[], []⟩ rfl hchain
    have hlast : (t :: ts).getLastD ([] : List Char) = (t :: ts).getLast (by simp) := by
      rw [List.getLastD_cons, List.getLast_eq_getLastD]
    refine ⟨?_, ?_, by decide⟩
    · rw [hrun.2, hrun.1, hlast]
    · rw [hrun.1, hlast]

/-- Witness for C1 at the concrete chain "Hel", "Hello". -/
theorem c1_cumulative_chain_concat_witness :
    (runEvents ([strL "Hel", strL "Hello"].map textEvent) ⟨[], []⟩).increments.flatten =
      strL "Hello" ∧
    (runEvents ([strL "Hel", strL "Hello"].map textEvent) ⟨[], []⟩).lastText = strL "Hello" := by
  have h := c1_cumulative_chain_concat [strL "Hel", strL "Hello"] (by decide)
    (List.chain'_cons.mpr ⟨⟨by decide, by decide⟩, List.chain'_singleton _⟩)
  exact ⟨h.1.trans (by decide), h.2.1.trans (by decide)⟩

/-- C3: an assistant event whose cumulative text is not longer than the
recorded text leaves the decoder state unchanged (zero increments), and the
recorded text length is non-decreasing across all events of a session. -/
theorem c3_short_event_ignored (st : DecState) (ev : StreamEvent) (c : Content)
    (evs : List StreamEvent)
    (h1 : ev.type = strL "assistant") (h2 : ev.content = some c)
    (h3 : (ContentAsString c).length ≤ st.lastText.length) :
    processEvent st ev = st ∧
    st.lastText.length ≤ (evs.foldl processEvent st).lastText.length := by
  refine ⟨?_, foldl_processEvent_length_le evs st⟩
  have h4 : ¬ st.lastText.length < (ContentAsString c).length := Nat.not_lt.mpr h3
  simp [processEvent, h1, h2, h4]

/-- Witness for C3: recorded text "Hello", incoming shorter text "Hi". -/
theorem c3_short_event_ignored_witness :
    processEvent ⟨strL "Hello", [strL "Hello"]⟩ (textEvent (strL "Hi")) =
      ⟨strL "Hello", [strL "Hello"]⟩ ∧
    (strL "Hello").length ≤
      (([] : List StreamEvent).foldl processEvent
        ⟨strL "Hello", [strL "Hello"]⟩).lastText.length :=
  c3_short_event_ignored ⟨strL "Hello", [strL "Hello"]⟩ (textEvent (strL "Hi"))
    (Content.blocks [textBlockJson (strL "Hi")]) [] rfl rfl (by decide)

/-- Feeding any partition of an already-decoded output text chunk by chunk
yields the same decoder state as feeding the whole text as one chunk. -/
theorem chunkFeeds_eq_singleFeed (parse : List Char → Option StreamEvent)
    (chunks : List (List Char)) :
    chunks.foldl (processChunk parse) initialChunkState =
      processChunk parse initialChunkState chunks.flatten := by
  cases chunks with
  | nil => rfl
  | cons c0 rest => exact foldl_processChunk_flatten parse rest c0 initialChunkState

/-- C9: the session timer fires after 120000 milliseconds, kills the
process with SIGTERM and rejects with the timeout error; increments already
emitted are never retracted by further decoding. -/
theorem c9_timeout_policy (st : DecState) (evs : List StreamEvent) :
    timeoutLimitMs = 120000 ∧
    SessionAction.kill (strL "SIGTERM") ∈ onTimeoutActions ∧
    SessionAction.rejectWith (strL "claude CLI timed out after 120 s") ∈ onTimeoutActions ∧
    st.increments <+: (evs.foldl processEvent st).increments :=
  ⟨rfl, List.mem_cons_self _ _, by simp [onTimeoutActions],
    foldl_processEvent_increments_extend evs st⟩

/-- C2 (amended): the non-streaming whole-output parse shares the
line-splitting, blank-line filter and assistant-event test with the
streaming decoder, but does not ignore assistant events with non-longer
text: it unconditionally records each assistant event's computed text, so
its result is the text of the last assistant event with content among all
segments of the output (empty if there is none). -/
theorem c2_nonstreaming_is_last_assistant_text
    (parse : List Char → Option StreamEvent) (raw : List Char) :
    TextExtractedFromStreamJSON parse raw =
      (((docLines raw).filter (fun l => !(isBlank l))).filterMap
        (assistantLineText parse)).getLastD [] := by
  have hf : (fun (lastText line : List Char) =>
      match parse line with
      | none => lastText
      | some ev =>
        if ev.type == strL "assistant" then
          match ev.content with
          | some c => ContentAsString c
          | none => lastText
        else lastText) =
      fun s l => (assistantLineText parse l).getD s := by
    funext s l
    unfold assistantLineText
    cases parse l with
    | none => rfl
    | some ev =>
      obtain ⟨ty, cnt⟩ := ev
      cases cnt with
      | none => cases hty : ty == strL "assistant" <;> simp [hty]
      | some c => cases hty : ty == strL "assistant" <;> simp [hty]
  unfold TextExtractedFromStreamJSON
  rw [hf]
  exact foldl_getD_eq_getLastD _ _ []

set_option maxRecDepth 20000 in
/-- Counterexample to C2 as stated: on an output whose second assistant
event carries a shorter text, the non-streaming parse returns the last
text "Hi" while the streaming decoder's final recorded text is "Hello". -/
theorem c2_counterexample :
    TextExtractedFromStreamJSON parseDemo demoRaw ≠
      (processChunk parseDemo initialChunkState demoRaw).dec.lastText ∧
    TextExtractedFromStreamJSON parseDemo demoRaw = strL "Hi" ∧
    (processChunk parseDemo initialChunkState demoRaw).dec.lastText = strL "Hello" := by
  refine ⟨?_, ?_, ?_⟩ <;> decide

/-- C5: the NDJSON document contains exactly one serialized agent-event
line per non-system message, in the original order (so one line per
`user`/`assistant` message and none for `system` messages, with string
content wrapped as a single text block by `agentEventJson`); the history
`[{role:"user", content:"Hi"}]` yields exactly the expected single line
terminated by a newline. -/
theorem c5_translator_one_line_per_message (ms : List Message) :
    nonblankLines (MessagesAsNDJSON ms) =
      (ms.filter (fun m => m.role != strL "system")).map
        (fun m => stringifyJson (agentEventJson m)) ∧
    MessagesAsNDJSON [⟨strL "user", MsgContent.str (strL "Hi")⟩] =
      strL "\x7b\"type\":\"user\",\"message\":\x7b\"role\":\"user\",\"content\":[\x7b\"type\":\"text\",\"text\":\"Hi\"\x7d]\x7d\x7d\n" :=
  ⟨ndjson_nonblankLines ms, by decide⟩

/-- C6: a history containing only system messages produces the NDJSON
document consisting of the single trailing newline, i.e. zero event
lines. -/
theorem c6_system_only_zero_events (ms : List Message)
    (h : ∀ m ∈ ms, m.role = strL "system") :
    MessagesAsNDJSON ms = strL "\n" ∧ nonblankLines (MessagesAsNDJSON ms) = [] := by
  have hfil : ms.filter (fun m => m.role != strL "system") = [] := by
    apply List.filter_eq_nil_iff.mpr
    intro m hm
    simp [h m hm]
  constructor
  · unfold MessagesAsNDJSON
    rw [hfil]
    rfl
  · rw [ndjson_nonblankLines, hfil]
    rfl

/-- Witness for C6 with one system message. -/
theorem c6_system_only_zero_events_witness :
    MessagesAsNDJSON [⟨strL "system", MsgContent.str (strL "Be helpful")⟩] = strL "\n" ∧
    nonblankLines (MessagesAsNDJSON
      [⟨strL "system", MsgContent.str (strL "Be helpful")⟩]) = [] :=
  c6_system_only_zero_events _ (by
    intro m hm
    rcases List.mem_singleton.mp hm with rfl
    rfl)

/-- C7: the extracted system prompt is absent exactly when no message has
role `system`; otherwise it comes from the first system message: string
content verbatim, block content as the `text` fields of its Text blocks
joined with newline separators, non-text blocks dropped. -/
theorem c7_system_prompt (ms ms1 ms2 : List Message) (m : Message)
    (s0 : List Char) (bs : List Json) :
    (extractedSystemPrompt ms = none ↔ ∀ m' ∈ ms, ¬ m'.role = strL "system") ∧
    ((∀ m' ∈ ms1, ¬ m'.role = strL "system") → m.role = strL "system" →
      ((m.content = MsgContent.str s0 →
          extractedSystemPrompt (ms1 ++ m :: ms2) = some s0) ∧
       (m.content = MsgContent.blocks bs →
          (∀ b ∈ bs, isTextBlock b = true →
            ∃ s, jsonLookup b (strL "text") = some (Json.str s)) →
          extractedSystemPrompt (ms1 ++ m :: ms2) =
            some (joinNL (bs.filterMap textBlockString))))) := by
  constructor
  · unfold extractedSystemPrompt
    cases hf : ms.find? (fun m' => m'.role == strL "system") with
    | none =>
      constructor
      · intro _ m' hm'
        have hne := List.find?_eq_none.mp hf m' hm'
        simpa [beq_iff_eq] using hne
      · intro _; rfl
    | some msys =>
      constructor
      · intro hcontr
        exfalso
        obtain ⟨r, mc⟩ := msys
        cases mc <;> exact Option.noConfusion hcontr
      · intro hall
        exfalso
        have hmem := List.mem_of_find?_eq_some hf
        have hp := List.find?_some hf
        exact hall msys hmem (beq_iff_eq.mp hp)
  · intro hpre hsys
    have hf : (ms1 ++ m :: ms2).find? (fun m' => m'.role == strL "system") = some m := by
      apply find?_append_cons
      · exact fun x hx => beq_eq_false_iff_ne.mpr (hpre x hx)
      · exact beq_iff_eq.mpr hsys
    constructor
    · intro hstr
      unfold extractedSystemPrompt
      rw [hf]
      show (match m.content with
        | MsgContent.str s => some s
        | MsgContent.blocks bs2 =>
            some (joinFieldNL ((bs2.filter isTextBlock).map
              (fun b => jsonLookup b (strL "text"))))) = some s0
      rw [hstr]
    · intro hbs htext
      unfold extractedSystemPrompt
      rw [hf]
      show (match m.content with
        | MsgContent.str s => some s
        | MsgContent.blocks bs2 =>
            some (joinFieldNL ((bs2.filter isTextBlock).map
              (fun b => jsonLookup b (strL "text"))))) = _
      rw [hbs]
      show some (joinFieldNL ((bs.filter isTextBlock).map
        (fun b => jsonLookup b (strL "text")))) = _
      rw [textBlocks_fields bs htext, joinFieldNL_map_str]

/-- Witness for C7: a user message followed by a system message whose
blocks are two Text blocks around an image block. -/
theorem c7_system_prompt_witness :
    extractedSystemPrompt
      [⟨strL "user", MsgContent.str (strL "hi")⟩,
       ⟨strL "system", MsgContent.blocks
         [textBlockJson (strL "Hello"),
          Json.obj [(strL "type", Json.str (strL "image"))],
          textBlockJson (strL "World")]⟩] = some (strL "Hello\nWorld") := by
  have h := (c7_system_prompt []
      [⟨strL "user", MsgContent.str (strL "hi")⟩] []
      ⟨strL "system", MsgContent.blocks
        [textBlockJson (strL "Hello"),
         Json.obj [(strL "type", Json.str (strL "image"))],
         textBlockJson (strL "World")]⟩
      []
      [textBlockJson (strL "Hello"),
       Json.obj [(strL "type", Json.str (strL "image"))],
       textBlockJson (strL "World")]).2
    (by
      intro m' hm'
      rcases List.mem_singleton.mp hm' with rfl
      decide)
    rfl
  have h2 := h.2 rfl (by
    intro b hb hib
    simp only [List.mem_cons, List.not_mem_nil, or_false] at hb
    rcases hb with rfl | rfl | rfl
    · exact ⟨strL "Hello", rfl⟩
    · exact absurd hib (by decide)
    · exact ⟨strL "World", rfl⟩)
  exact h2.trans (by decide)

/-- C8: a non-zero (or signal-null) exit code fails the operation with an
error message carrying the rendered exit code and the trimmed diagnostic
text as substrings; exit code zero succeeds with the parsed text and the
resolved session id, which is the caller's id when present and the fresh
UUID otherwise. -/
theorem c8_close_outcome (parse : List Char → Option StreamEvent) (code : Option Int)
    (stdOut stdErr : List Char) (sid : Option (List Char)) (fresh : List Char) :
    (code ≠ some 0 →
      closeOutcome parse code stdOut stdErr sid fresh =
        RunResult.err (strL "claude exited with code " ++ exitCodeChars code ++
          strL ": " ++ jsTrim stdErr) ∧
      exitCodeChars code <:+:
        (strL "claude exited with code " ++ exitCodeChars code ++
          strL ": " ++ jsTrim stdErr) ∧
      jsTrim stdErr <:+:
        (strL "claude exited with code " ++ exitCodeChars code ++
          strL ": " ++ jsTrim stdErr)) ∧
    (code = some 0 →
      closeOutcome parse code stdOut stdErr sid fresh =
        RunResult.ok (TextExtractedFromStreamJSON parse stdOut)
          (resolvedSessionId sid fresh)) ∧
    resolvedSessionId none fresh = fresh ∧
    (∀ s, resolvedSessionId (some s) fresh = s) := by
  refine ⟨?_, ?_, rfl, fun s => rfl⟩
  · intro hne
    have hbeq : (code == some (0 : Int)) = false := beq_eq_false_iff_ne.mpr hne
    refine ⟨by simp [closeOutcome, hbeq], ?_, ?_⟩
    · exact ⟨strL "claude exited with code ", strL ": " ++ jsTrim stdErr,
        by simp [List.append_assoc]⟩
    · exact ⟨strL "claude exited with code " ++ exitCodeChars code ++ strL ": ", [],
        by simp [List.append_assoc]⟩
  · intro h0
    simp [closeOutcome, h0]

/-- Witness for C8: exit code 1 with diagnostic " boom ", and exit code 0
with a caller-provided session id. -/
theorem c8_close_outcome_witness :
    closeOutcome (fun _ => none) (some 1) [] (strL " boom ") none (strL "fresh-uuid") =
      RunResult.err (strL "claude exited with code 1: boom") ∧
    jsTrim (strL " boom ") <:+:
      (strL "claude exited with code " ++ exitCodeChars (some 1) ++
        strL ": " ++ jsTrim (strL " boom ")) ∧
    jsTrim (strL " boom ") = strL "boom" ∧
    closeOutcome (fun _ => none) (some 0) [] [] (some (strL "sid-1")) (strL "fresh-uuid") =
      RunResult.ok [] (strL "sid-1") := by
  have h1 := (c8_close_outcome (fun _ => none) (some 1) [] (strL " boom ") none
      (strL "fresh-uuid")).1 (by decide)
  have h2 := ((c8_close_outcome (fun _ => none) (some 0) [] [] (some (strL "sid-1"))
      (strL "fresh-uuid")).2).1 rfl
  exact ⟨h1.1.trans (by decide), h1.2.2, by decide, h2.trans (by decide)⟩

/-- C10 (implicit): a message whose role is neither "system" nor "user" is
neither dropped nor rejected: it contributes exactly one event line at its
position, whose event type is "assistant" while `message.role` keeps the
original role value. -/
theorem c10_unknown_role_as_assistant (ms1 ms2 : List Message) (m : Message)
    (h1 : ¬ m.role = strL "system") (h2 : ¬ m.role = strL "user") :
    nonblankLines (MessagesAsNDJSON (ms1 ++ m :: ms2)) =
      (ms1.filter (fun x => x.role != strL "system")).map
        (fun x => stringifyJson (agentEventJson x)) ++
      stringifyJson (agentEventJson m) ::
        (ms2.filter (fun x => x.role != strL "system")).map
          (fun x => stringifyJson (agentEventJson x)) ∧
    agentEventJson m =
      Json.obj
        [(strL "type", Json.str (strL "assistant")),
         (strL "message",
           Json.obj [(strL "role", Json.str m.role),
                     (strL "content", Json.arr (normalizedContent m.content))])] := by
  constructor
  · rw [ndjson_nonblankLines, List.filter_append, List.filter_cons]
    have hm : (m.role != strL "system") = true := bne_iff_ne.mpr h1
    simp [hm, List.map_append]
  · unfold agentEventJson agentEventType
    rw [show (m.role == strL "user") = false from beq_eq_false_iff_ne.mpr h2]
    simp

/-- Witness for C10 with role "tool". -/
theorem c10_unknown_role_as_assistant_witness :
    nonblankLines (MessagesAsNDJSON [⟨strL "tool", MsgContent.str (strL "out")⟩]) =
      [stringifyJson (agentEventJson ⟨strL "tool", MsgContent.str (strL "out")⟩)] ∧
    agentEventJson ⟨strL "tool", MsgContent.str (strL "out")⟩ =
      Json.obj
        [(strL "type", Json.str (strL "assistant")),
         (strL "message",
           Json.obj [(strL "role", Json.str (strL "tool")),
                     (strL "content",
                       Json.arr (normalizedContent (MsgContent.str (strL "out"))))])] := by
  have h := c10_unknown_role_as_assistant [] [] ⟨strL "tool", MsgContent.str (strL "out")⟩
      (by decide) (by decide)
  exact ⟨h.1, h.2⟩

/-! ## UTF-8 round trip on character boundaries -/

/-- Decoding the UTF-8 bytes of one character followed by any tail yields
that character followed by the decoded tail. -/
theorem utf8DecodeBuf_encodeChar (c : Char) (bs : List Nat) :
    utf8DecodeBuf (utf8EncodeChar c ++ bs) = c :: utf8DecodeBuf bs := by
  have hv : c.toNat < 0xD800 ∨ (0xDFFF < c.toNat ∧ c.toNat < 0x110000) := c.valid
  have hofn : Char.ofNat c.toNat = c := Char.ofNat_toNat c
  by_cases h1 : c.toNat < 0x80
  · have he : utf8EncodeChar c = [c.toNat] := by
      unfold utf8EncodeChar; rw [if_pos h1]
    rw [he, List.cons_append, List.nil_append, utf8DecodeBuf.eq_def]
    dsimp only
    rw [if_pos h1, hofn]
  · by_cases h2 : c.toNat < 0x800
    · have he : utf8EncodeChar c = [0xC0 + c.toNat / 64, 0x80 + c.toNat % 64] := by
        unfold utf8EncodeChar; rw [if_neg h1, if_pos h2]
      have f1 : ¬ (0xC0 + c.toNat / 64 < 0x80) := by omega
      have f2 : ¬ (0xC0 + c.toNat / 64 < 0xC2) := by omega
      have f3 : 0xC0 + c.toNat / 64 ≤ 0xDF := by omega
      have f4 : utf8Cont (0x80 + c.toNat % 64) := by unfold utf8Cont; omega
      have f5 : (0xC0 + c.toNat / 64 - 0xC0) * 64 + (0x80 + c.toNat % 64 - 0x80) =
          c.toNat := by omega
      rw [he]
      simp only [List.cons_append, List.nil_append]
      rw [utf8DecodeBuf.eq_def]
      dsimp only
      rw [if_neg f1, if_neg f2, if_pos f3, if_pos f4, f5, hofn]
    · by_cases h3 : c.toNat < 0x10000
      · have he : utf8EncodeChar c =
            [0xE0 + c.toNat / 4096, 0x80 + (c.toNat / 64) % 64, 0x80 + c.toNat % 64] := by
          unfold utf8EncodeChar; rw [if_neg h1, if_neg h2, if_pos h3]
        have f1 : ¬ (0xE0 + c.toNat / 4096 < 0x80) := by omega
        have f2 : ¬ (0xE0 + c.toNat / 4096 < 0xC2) := by omega
        have f3 : ¬ (0xE0 + c.toNat / 4096 ≤ 0xDF) := by omega
        have f4 : 0xE0 + c.toNat / 4096 ≤ 0xEF := by omega
        have fc1 : utf8Cont1of3 (0xE0 + c.toNat / 4096) (0x80 + (c.toNat / 64) % 64) := by
          unfold utf8Cont1of3
          constructor
          · split_ifs with hb
            · omega
            · omega
          · split_ifs with hb
            · omega
            · omega
        have fc2 : utf8Cont (0x80 + c.toNat % 64) := by unfold utf8Cont; omega
        have f5 : (0xE0 + c.toNat / 4096 - 0xE0) * 4096 +
            (0x80 + (c.toNat / 64) % 64 - 0x80) * 64 + (0x80 + c.toNat % 64 - 0x80) =
            c.toNat := by omega
        rw [he]
        simp only [List.cons_append, List.nil_append]
        rw [utf8DecodeBuf.eq_def]
        dsimp only
        rw [if_neg f1, if_neg f2, if_neg f3, if_pos f4, if_pos fc1, if_pos fc2, f5, hofn]
      · have he : utf8EncodeChar c =
            [0xF0 + c.toNat / 262144, 0x80 + (c.toNat / 4096) % 64,
             0x80 + (c.toNat / 64) % 64, 0x80 + c.toNat % 64] := by
          unfold utf8EncodeChar; rw [if_neg h1, if_neg h2, if_neg h3]
        have f1 : ¬ (0xF0 + c.toNat / 262144 < 0x80) := by omega
        have f2 : ¬ (0xF0 + c.toNat / 262144 < 0xC2) := by omega
        have f3 : ¬ (0xF0 + c.toNat / 262144 ≤ 0xDF) := by omega
        have f4 : ¬ (0xF0 + c.toNat / 262144 ≤ 0xEF) := by omega
        have f5 : 0xF0 + c.toNat / 262144 ≤ 0xF4 := by omega
        have fc1 : utf8Cont1of4 (0xF0 + c.toNat / 262144)
            (0x80 + (c.toNat / 4096) % 64) := by
          unfold utf8Cont1of4
          constructor
          · split_ifs with hb
            · omega
            · omega
          · split_ifs with hb
            · omega
            · omega
        have fc2 : utf8Cont (0x80 + (c.toNat / 64) % 64) := by unfold utf8Cont; omega
        have fc3 : utf8Cont (0x80 + c.toNat % 64) := by unfold utf8Cont; omega
        have f6 : (0xF0 + c.toNat / 262144 - 0xF0) * 262144 +
            (0x80 + (c.toNat / 4096) % 64 - 0x80) * 4096 +
            (0x80 + (c.toNat / 64) % 64 - 0x80) * 64 + (0x80 + c.toNat % 64 - 0x80) =
            c.toNat := by omega
        rw [he]
        simp only [List.cons_append, List.nil_append]
        rw [utf8DecodeBuf.eq_def]
        dsimp only
        rw [if_neg f1, if_neg f2, if_neg f3, if_neg f4, if_pos f5, if_pos fc1, if_pos fc2,
          if_pos fc3, f6, hofn]

/-- Decoding the UTF-8 encoding of a string recovers the string. -/
theorem utf8DecodeBuf_utf8Encode (s : List Char) :
    utf8DecodeBuf (utf8Encode s) = s := by
  induction s with
  | nil => rfl
  | cons c s ih =>
    show utf8DecodeBuf ((List.map utf8EncodeChar (c :: s)).flatten) = c :: s
    rw [List.map_cons, List.flatten_cons, utf8DecodeBuf_encodeChar]
    exact congrArg (c :: ·) ih

/-- Decoding one chunk that is the encoding of a text chunk behaves as the
text chunk itself. -/
theorem processChunkBuf_utf8Encode (parse : List Char → Option StreamEvent)
    (st : ChunkState) (t : List Char) :
    processChunkBuf parse st (utf8Encode t) = processChunk parse st t := by
  unfold processChunkBuf
  rw [utf8DecodeBuf_utf8Encode]

/-- C4 (amended): feeding a partition of an agent output's UTF-8 bytes into
chunks that split only at character boundaries — each chunk decoded
independently by the handler, as the code does — produces exactly the same
decoder state (same emitted increments, same final recorded text, same
carry) as feeding the whole output as one chunk; equivalently, at the text
level, every chunk partition of the decoded output decodes identically.
Byte positions inside a multi-byte UTF-8 character are excluded: there the
per-chunk decode yields replacement characters (see the counterexample). -/
theorem c4_char_boundary_chunks_invisible (parse : List Char → Option StreamEvent)
    (chunkTexts : List (List Char)) :
    (chunkTexts.map utf8Encode).foldl (processChunkBuf parse) initialChunkState =
      processChunkBuf parse initialChunkState (utf8Encode chunkTexts.flatten) ∧
    chunkTexts.foldl (processChunk parse) initialChunkState =
      processChunk parse initialChunkState chunkTexts.flatten := by
  have hchar := chunkFeeds_eq_singleFeed parse chunkTexts
  refine ⟨?_, hchar⟩
  rw [List.foldl_map]
  have hfun : (fun (st : ChunkState) (t : List Char) =>
      processChunkBuf parse st (utf8Encode t)) = processChunk parse := by
    funext st t
    exact processChunkBuf_utf8Encode parse st t
  rw [hfun, hchar, processChunkBuf_utf8Encode]

set_option maxRecDepth 100000 in
/-- Counterexample to C4 as stated: splitting the output's bytes in the
middle of the two-byte character "é" (after its lead byte 0xC3) makes the
per-chunk decode produce two replacement characters, so the two-chunk feed
emits the increment "��" and records "��", while the single-chunk feed
emits "é" and records "é" — not the same increments nor the same final
recorded text. -/
theorem c4_counterexample :
    demoBytesA ++ demoBytesB = demoBytes ∧
    ([demoBytesA, demoBytesB].foldl (processChunkBuf parseDemoE) initialChunkState).dec ≠
      (processChunkBuf parseDemoE initialChunkState
        ([demoBytesA, demoBytesB] : List (List Nat)).flatten).dec ∧
    ([demoBytesA, demoBytesB].foldl (processChunkBuf parseDemoE)
      initialChunkState).dec.increments = [[replChar, replChar]] ∧
    (processChunkBuf parseDemoE initialChunkState
      ([demoBytesA, demoBytesB] : List (List Nat)).flatten).dec.increments = [strL "é"] ∧
    ([demoBytesA, demoBytesB].foldl (processChunkBuf parseDemoE)
      initialChunkState).dec.lastText = [replChar, replChar] ∧
    (processChunkBuf parseDemoE initialChunkState
      ([demoBytesA, demoBytesB] : List (List Nat)).flatten).dec.lastText = strL "é" := by
  refine ⟨?_, ?_, ?_, ?_, ?_, ?_⟩ <;> decide
